import Mathlib

set_option maxHeartbeats 1000000

/-!
Verification of the zmcdn orchestration pipeline.

Shallow embedding of:
- the `/illustrateMove` request handler (request validation, directive
  parsing, the repaint/reuse cache decision, image generation, cache
  write-back) from the server variant that implements caching;
- `GameMasterQwen.generateSceneDirection` post-processing (body parse
  fallback, reasoning-marker stripping, bounded answer history).

External effects (the two HTTP backends, `JSON.parse`, the filesystem
cache) are passed in as explicit parameters: the director call result is
an `Except`, the JSON parse of the directive text is an oracle function
`String → Option SceneData`, the image-generation call result is an
`Except`, and the filesystem is an association list from paths to bytes.
The handler records which backend calls and which cache paths it touches
so that claims about call counts and path usage can be stated.
-/

namespace Zmcdn

/-- Raw image bytes (a decoded base64 payload). -/
abbrev Bytes := List Nat

/-- Filesystem fragment backing the image cache: association list from a
file path to the bytes of the file.  `fs.writeFileSync` is an overwrite, which
the prepend in `cacheWrite` models (lookup finds the newest entry). -/
abbrev Cache := List (String × Bytes)

/-- Embeds `fs.existsSync` / `fs.readFileSync` on the cache fragment:
lookup of a path. -/
def cacheFind (c : Cache) (p : String) : Option Bytes :=
  match c with
  | [] => none
  | (q, b) :: rest => if q = p then some b else cacheFind rest p

/-- Embeds `fs.writeFileSync`: overwriting write of a path. -/
def cacheWrite (c : Cache) (p : String) (b : Bytes) : Cache :=
  (p, b) :: c

/-- The directive object produced by `JSON.parse(filteredContent)`.
Fields the handler reads; `none` models an absent field. -/
structure SceneData where
  visual_prompt : Option String
  reuse_key : Option String
  repaint : Option Bool
  style_tags : Option String
deriving Repr, DecidableEq

/-- JavaScript truthiness of `sceneData.reuse_key`: the field is present
and a non-empty string. -/
def keyTruthy : Option String → Bool
  | none => false
  | some s => !s.isEmpty

/-- The raw key string used to build the cache path (only ever used under
a `keyTruthy` guard, mirroring the code). -/
def keyString (k : Option String) : String := k.getD ""

/-- The JSON body of a POST `/illustrateMove` request.  An absent field is
modelled as `""`, which is exactly what the JS truthiness check of the handler,
`!zmcdnSessionID || !lastZMachineOutput || !gameIdentifier` tests. -/
structure MoveRequest where
  zmcdnSessionID : String
  lastZMachineOutput : String
  lastZMachineInput : String
  playerLocation : String
  gameIdentifier : String
  illustrationFormat : String
deriving Repr, DecidableEq

/-- One character of the regex class `[a-zA-Z0-9.]`. -/
def validGameChar (c : Char) : Bool :=
  ('a' ≤ c && c ≤ 'z') || ('A' ≤ c && c ≤ 'Z') || ('0' ≤ c && c ≤ '9') || c = '.'

/-- Embeds `/^[a-zA-Z0-9.]+$/.test(gameIdentifier)`: non-empty and every
character in the class. -/
def validGameId (s : String) : Bool :=
  !s.isEmpty && s.data.all validGameChar

/-- Splits a character list into segments on the POSIX separator, the
first step of Node `path.normalize`; `cur` accumulates the current
segment in reverse. -/
def splitSegsAux (cur : List Char) : List Char → List (List Char)
  | [] => [cur.reverse]
  | c :: rest =>
    if c = '/' then cur.reverse :: splitSegsAux [] rest
    else splitSegsAux (c :: cur) rest

/-- One step of Node `path.normalize` segment resolution for a relative
path: empty and `.` segments are dropped, `..` pops the preceding normal
segment off the stack (kept when the stack is empty or already ends in
`..`, since a relative path may traverse above its origin), any other
segment is pushed. -/
def stepSeg (acc : List (List Char)) (s : List Char) : List (List Char) :=
  if s = [] ∨ s = ['.'] then acc
  else if s = ['.', '.'] then
    match acc with
    | [] => [['.', '.']]
    | top :: acc2 => if top = ['.', '.'] then s :: acc else acc2
  else s :: acc

/-- Node `path.normalize` segment resolution over a whole segment list. -/
def normSegs (l : List (List Char)) : List (List Char) :=
  (l.foldl stepSeg []).reverse

/-- Joins segments back with the POSIX separator. -/
def joinSegs : List (List Char) → List Char
  | [] => []
  | [s] => s
  | s :: rest => s ++ '/' :: joinSegs rest

/-- Embeds Node `path.normalize` on a relative path with no trailing
separator (the only shape the handler produces): split on `/`, resolve
`.`, `..` and empty segments, rejoin; an empty result is `.`. -/
def posixNormalize (p : String) : String :=
  match normSegs (splitSegsAux [] p.data) with
  | [] => "."
  | segs => ⟨joinSegs segs⟩

/-- Embeds
`path.join(__dirname, "cache", gameIdentifier, reuseKey + ".png")`
relative to `__dirname`: the reuse key is interpolated verbatim, with a
fixed `.png` suffix, into the joined string, which `path.join` then
normalizes (resolving `.`, `..` and empty segments).  The write path is
built by the code in two steps (`path.join(__dirname, "cache", gid)`
then `path.join(cacheDir, key + ".png")`), which POSIX join resolves to
the same normalized path as the single join modelled here.  The absolute
`__dirname` base is not modelled: excess `..` segments that would be
clamped at the filesystem root are kept, which is faithful for every
path that stays at or below `__dirname` and never conflates two paths
the program keeps distinct below the root. -/
def mkCachePath (gid : String) (key : String) : String :=
  posixNormalize ("cache/" ++ gid ++ "/" ++ (key ++ ".png"))

/-- The HTTP-level outcome of the handler: an error status+message, or the
image bytes that are returned (directly for png, or handed to the sixel
converter, which is outside this core). -/
inductive MoveResponse where
  | err (status : Nat) (msg : String)
  | img (bytes : Bytes)
deriving Repr, DecidableEq

/-- Result of running the handler, together with the observable effects
this verification tracks: the final cache state, how many times the
director backend was invoked, the (prompt, size) of each image-generation
call, and the cache paths read and written. -/
structure MoveOutcome where
  response : MoveResponse
  cache : Cache
  directorCalls : Nat
  genCalls : List (String × String)
  cacheReads : List String
  cacheWrites : List String
deriving Repr, DecidableEq

/-- An error outcome that touched neither the illustrator nor the cache. -/
def errOutcome (status : Nat) (msg : String) (dir : Nat) (cache : Cache) :
    MoveOutcome :=
  { response := .err status msg, cache := cache, directorCalls := dir,
    genCalls := [], cacheReads := [], cacheWrites := [] }

/-- The post-parse core of the `/illustrateMove` handler: the
repaint/reuse cache decision, image generation (the code passes
`filteredContent` — the whole directive text — and lets
`IllustratorFLUX.generateImage` use its default size `"512x512"`), and
the conditional cache write-back.  `gen` is the outcome of the
image-generation call if one is made (`.ok` carries the decoded bytes,
`.error` a backend failure, which the catch block turns into a 500). -/
def illustrateMoveCore (gid : String) (filteredContent : String)
    (sd : SceneData) (gen : Except Unit Bytes) (cache : Cache) : MoveOutcome :=
  if sd.repaint = some false ∧ keyTruthy sd.reuse_key = true then
    let p := mkCachePath gid (keyString sd.reuse_key)
    match cacheFind cache p with
    | some bytes =>
      { response := .img bytes, cache := cache, directorCalls := 1,
        genCalls := [], cacheReads := [p], cacheWrites := [] }
    | none =>
      match gen with
      | .error _ =>
        { response := .err 500 "failed to process request", cache := cache,
          directorCalls := 1, genCalls := [(filteredContent, "512x512")],
          cacheReads := [], cacheWrites := [] }
      | .ok b =>
        { response := .img b, cache := cache, directorCalls := 1,
          genCalls := [(filteredContent, "512x512")], cacheReads := [],
          cacheWrites := [] }
  else
    match gen with
    | .error _ =>
      { response := .err 500 "failed to process request", cache := cache,
        directorCalls := 1, genCalls := [(filteredContent, "512x512")],
        cacheReads := [], cacheWrites := [] }
    | .ok b =>
      if sd.repaint = some true ∧ keyTruthy sd.reuse_key = true then
        let p := mkCachePath gid (keyString sd.reuse_key)
        { response := .img b, cache := cacheWrite cache p b,
          directorCalls := 1, genCalls := [(filteredContent, "512x512")],
          cacheReads := [], cacheWrites := [p] }
      else
        { response := .img b, cache := cache, directorCalls := 1,
          genCalls := [(filteredContent, "512x512")], cacheReads := [],
          cacheWrites := [] }

/-- The `/illustrateMove` handler.  `apiKey` is the `GAMEMASTER_API_KEY`
environment variable (`none` when unset/empty), `director` the result of
`gameMaster.generateSceneDirection` if it is called (`.error` models a
thrown backend error), `parse` the `JSON.parse` oracle on the directive
text, `gen` the result of the illustrator call if one is made. -/
def illustrateMove (req : MoveRequest) (apiKey : Option String)
    (director : Except Unit String) (parse : String → Option SceneData)
    (gen : Except Unit Bytes) (cache : Cache) : MoveOutcome :=
  if req.zmcdnSessionID = "" ∨ req.lastZMachineOutput = "" ∨
      req.gameIdentifier = "" then
    errOutcome 400 "missing required JSON parameters" 0 cache
  else if validGameId req.gameIdentifier = false then
    errOutcome 400 "invalid gameIdentifier format" 0 cache
  else
    match apiKey with
    | none => errOutcome 500 "GAMEMASTER_API_KEY not configured" 0 cache
    | some _ =>
      match director with
      | .error _ => errOutcome 500 "failed to process request" 1 cache
      | .ok filteredContent =>
        match parse filteredContent with
        | none => errOutcome 500 "Invalid JSON from game master" 1 cache
        | some sceneData =>
          illustrateMoveCore req.gameIdentifier filteredContent sceneData
            gen cache

/-- Embeds `GameMasterQwen.maxAnswerHistory`. -/
def maxAnswerHistory : Nat := 8

/-- Embeds the history update in `generateSceneDirection`:
`lastAnswers.push(filteredContent)` followed by
`if (length > 8) splice(0, length - 8)` — append, then discard the oldest
entries down to length 8. -/
def appendAnswer (hist : List String) (entry : String) : List String :=
  if maxAnswerHistory < (hist ++ [entry]).length then
    (hist ++ [entry]).drop ((hist ++ [entry]).length - maxAnswerHistory)
  else hist ++ [entry]

/-- The last `n` elements of a list (the suffix kept by capacity
eviction). -/
def lastN (n : Nat) (l : List α) : List α := l.drop (l.length - n)

/-- The open reasoning marker, the literal characters of the pattern
`<think>` in `filteredContent.replace`. -/
def opn : List Char := ['<', 't', 'h', 'i', 'n', 'k', '>']

/-- The close reasoning marker `</think>`. -/
def cls : List Char := ['<', '/', 't', 'h', 'i', 'n', 'k', '>']

/-- Tests whether `pat` occurs as a contiguous substring of the list. -/
def hasSub (pat : List Char) : List Char → Bool
  | [] => pat.isEmpty
  | c :: rest => pat.isPrefixOf (c :: rest) || hasSub pat rest

/-- Scan for the first occurrence of the close marker; on success return
the remainder after it.  This is the lazy `[\s\S]*?<\/think>` part of the
regex: the match extends exactly to the first close marker. -/
def skipToClose (s : List Char) : Option (List Char) :=
  match s with
  | [] => none
  | c :: rest =>
    if cls.isPrefixOf (c :: rest) then some ((c :: rest).drop cls.length)
    else skipToClose rest

/-- Fuelled scanner for the global regex replace
`replace(/<think>[\s\S]*?<\/think>/g, "")`: at each position, if the open
marker starts here and a close marker occurs later, delete through the
first close and continue after it; otherwise keep the character and move
on.  Fuel only guarantees structural termination; `stripThink` always
supplies enough (the scan position advances on every step). -/
def stripAux : Nat → List Char → List Char
  | _, [] => []
  | 0, s => s
  | fuel + 1, c :: rest =>
    if opn.isPrefixOf (c :: rest) then
      match skipToClose ((c :: rest).drop opn.length) with
      | some s₂ => stripAux fuel s₂
      | none => c :: stripAux fuel rest
    else c :: stripAux fuel rest

/-- Removal of every `<think>...</think>` span, on character lists. -/
def stripThink (s : List Char) : List Char := stripAux s.length s

/-- Embeds `filteredContent.replace(/<think>[\s\S]*?<\/think>/g, "")`. -/
def stripReasoningMarkers (s : String) : String := ⟨stripThink s.data⟩

/-- A decomposition witnessing that a string consists of marker-free text
segments interleaved with well-formed `<think>...</think>` pairs whose
bodies are marker-free; the second index is the text left after removing
every pair. -/
inductive Stripped : List Char → List Char → Prop
  | plain (t : List Char) :
      hasSub opn t = false → hasSub cls t = false → Stripped t t
  | seg (t b rest r : List Char) :
      hasSub opn t = false → hasSub cls t = false →
      hasSub opn b = false → hasSub cls b = false →
      Stripped rest r →
      Stripped (t ++ (opn ++ (b ++ (cls ++ rest)))) (t ++ r)

/-- How `generateSceneDirection` got its content out of the buffered
response body: `JSON.parse(savedOutput)` threw; or it succeeded but the
truthiness check `choices && choices[0] && choices[0].message` failed; or
`choices[0].message` was present with the given `content`. -/
inductive QwenExtract where
  | parseFailure
  | missingMessage
  | message (content : String)
deriving Repr, DecidableEq

/-- The content-selection step of `generateSceneDirection`: start from
the whole buffered body, and only when `choices[0].message` was extracted
replace it by that content with reasoning markers stripped.  Parse
failure is caught and logged, never propagated. -/
def extractDirectiveText (ex : QwenExtract) (savedOutput : String) : String :=
  match ex with
  | .parseFailure => savedOutput
  | .missingMessage => savedOutput
  | .message c => stripReasoningMarkers c

/-- The observable result of `generateSceneDirection` after the response
body has been buffered: the returned directive text and the updated
answer history. -/
def generateSceneDirectionStep (ex : QwenExtract) (savedOutput : String)
    (hist : List String) : String × List String :=
  let fc := extractDirectiveText ex savedOutput
  (fc, appendAnswer hist fc)

/-! Concrete fixtures used by witnesses and counterexamples. -/

/-- A parse oracle that behaves like `JSON.parse` succeeding on exactly
the given directive text with the given parsed object. -/
def parseOf (txt : String) (sd : SceneData) : String → Option SceneData :=
  fun s => if s = txt then some sd else none

/-- A well-formed request body. -/
def reqA : MoveRequest :=
  { zmcdnSessionID := "s1", lastZMachineOutput := "Opening the mailbox.",
    lastZMachineInput := "open mailbox", playerLocation := "West of House",
    gameIdentifier := "zork1.z3", illustrationFormat := "png" }

/-- Directive text whose `JSON.parse` yields `repaint: false` and a
present but empty `reuse_key`. -/
def txtEmptyKeyFalse : String :=
  "\x7b\"visual_prompt\": \"a dark cave\", \"reuse_key\": \"\", \"repaint\": false\x7d"

/-- Parsed form of `txtEmptyKeyFalse`. -/
def sdEmptyKeyFalse : SceneData :=
  { visual_prompt := some "a dark cave", reuse_key := some "",
    repaint := some false, style_tags := none }

/-- Directive text whose `JSON.parse` yields `repaint: true` and a
present but empty `reuse_key`. -/
def txtEmptyKeyTrue : String :=
  "\x7b\"visual_prompt\": \"a dark cave\", \"reuse_key\": \"\", \"repaint\": true\x7d"

/-- Parsed form of `txtEmptyKeyTrue`. -/
def sdEmptyKeyTrue : SceneData :=
  { visual_prompt := some "a dark cave", reuse_key := some "",
    repaint := some true, style_tags := none }

/-- Directive text with a distinct `visual_prompt` field, for comparing
the prompt actually sent to the illustrator with that field. -/
def txtHouse : String :=
  "\x7b\"visual_prompt\": \"a white house\", \"reuse_key\": \"wh1\", \"repaint\": true\x7d"

/-- Parsed form of `txtHouse`. -/
def sdHouse : SceneData :=
  { visual_prompt := some "a white house", reuse_key := some "wh1",
    repaint := some true, style_tags := none }

/-- Directive text asking for reuse of key `west1` without repaint. -/
def txtHit : String :=
  "\x7b\"visual_prompt\": \"a mailbox\", \"reuse_key\": \"west1\", \"repaint\": false\x7d"

/-- Parsed form of `txtHit`. -/
def sdHit : SceneData :=
  { visual_prompt := some "a mailbox", reuse_key := some "west1",
    repaint := some false, style_tags := none }

/-- A cache holding an entry for `(zork1.z3, west1)`. -/
def cacheHit : Cache := [(mkCachePath "zork1.z3" "west1", [7, 7, 7])]

/-- A cache holding an entry under the empty reuse key. -/
def cacheEmptyKey : Cache := [(mkCachePath "zork1.z3" "", [1, 2, 3])]

/-- The content from the test of this repository named
`should extract JSON content between first \x7b and last \x7d`: a JSON
object surrounded by noise text. -/
def txtNoise : String :=
  "Here is some text before \x7b\"reuse_key\": \"w\"\x7d and after"

/-- A directive content with one well-formed reasoning-marker pair. -/
def txtThink : String := "before <think>reasoning</think> after"

/-- A string containing exactly two well-formed reasoning-marker pairs,
whose surrounding text fragments concatenate into a fresh marker pair
once the original pairs are excised. -/
def txtLatent : String :=
  "<thi<think>X</think>nk>Y</thi<think>Z</think>nk>"

/-- Directive text whose `JSON.parse` yields `repaint: false` and a
reuse key containing a parent-directory traversal segment. -/
def txtTraversal : String :=
  "\x7b\"visual_prompt\": \"a cave\", \"reuse_key\": \"../x\", \"repaint\": false\x7d"

/-- Parsed form of `txtTraversal`. -/
def sdTraversal : SceneData :=
  { visual_prompt := some "a cave", reuse_key := some "../x",
    repaint := some false, style_tags := none }

/-- A cache holding an entry at the normalized traversal path. -/
def cacheTraversal : Cache := [("cache/x.png", [4, 5])]

/-- A request whose gameIdentifier contains characters outside
`[a-zA-Z0-9.]` (a path-traversal attempt). -/
def reqBad : MoveRequest :=
  { zmcdnSessionID := "s1", lastZMachineOutput := "out",
    lastZMachineInput := "in", playerLocation := "loc",
    gameIdentifier := "../evil", illustrationFormat := "png" }

/-! ## Conversation history lemmas -/

theorem lastN_of_le (n : Nat) (l : List α) (h : l.length ≤ n) :
    lastN n l = l := by
  have h0 : l.length - n = 0 := by omega
  simp [lastN, h0]

theorem lastN_length_le (n : Nat) (l : List α) : (lastN n l).length ≤ n := by
  simp [lastN]; omega

theorem appendAnswer_eq_lastN (h : List String) (e : String) :
    appendAnswer h e = lastN maxAnswerHistory (h ++ [e]) := by
  unfold appendAnswer lastN
  split
  · rfl
  · next h8 =>
    have h0 : (h ++ [e]).length - maxAnswerHistory = 0 := by omega
    rw [h0, List.drop_zero]

theorem lastN_append_right (n : Nat) (x y : List α) (h : n ≤ y.length) :
    lastN n (x ++ y) = lastN n y := by
  unfold lastN
  rw [List.length_append, List.drop_append_eq_append_drop,
    List.drop_eq_nil_of_le (by omega)]
  have h2 : x.length + y.length - n - x.length = y.length - n := by omega
  rw [h2, List.nil_append]

theorem take_lastN (n : Nat) (a : List α) :
    a.take (a.length - n) ++ lastN n a = a := by
  unfold lastN
  exact List.take_append_drop _ a

theorem lastN_lastN_append (n : Nat) (a b : List α) :
    lastN n (lastN n a ++ b) = lastN n (a ++ b) := by
  by_cases h : n ≤ a.length
  · have hlen : (lastN n a).length = n := by simp [lastN]; omega
    calc lastN n (lastN n a ++ b)
        = lastN n (a.take (a.length - n) ++ (lastN n a ++ b)) :=
          (lastN_append_right n (a.take (a.length - n)) (lastN n a ++ b)
            (by rw [List.length_append, hlen]; omega)).symm
      _ = lastN n (a ++ b) := by
          rw [← List.append_assoc, take_lastN]
  · rw [lastN_of_le n a (by omega)]

theorem foldl_appendAnswer (es : List String) (h : List String)
    (hh : h.length ≤ maxAnswerHistory) :
    List.foldl appendAnswer h es = lastN maxAnswerHistory (h ++ es) := by
  induction es generalizing h with
  | nil =>
    rw [List.foldl_nil, List.append_nil, lastN_of_le _ _ hh]
  | cons e es ih =>
    rw [List.foldl_cons, ih (appendAnswer h e)
      (by rw [appendAnswer_eq_lastN]; exact lastN_length_le _ _),
      appendAnswer_eq_lastN, lastN_lastN_append]
    congr 1
    simp

/-- C5: for every sequence of more than 8 appends to the conversation
history, the stored history has length exactly 8, consists of the 8 most
recently appended entries in their original relative order, and at no
observable point (after any number of appends) does the length exceed 8. -/
theorem conversationHistory_sliding_window (es : List String)
    (hlen : 8 < es.length) :
    (List.foldl appendAnswer [] es).length = 8 ∧
    List.foldl appendAnswer [] es = es.drop (es.length - 8) ∧
    ∀ k, (List.foldl appendAnswer [] (es.take k)).length ≤ 8 := by
  have hbase : ([] : List String).length ≤ maxAnswerHistory := by simp
  refine ⟨?_, ?_, ?_⟩
  · rw [foldl_appendAnswer es [] hbase, List.nil_append]
    simp [lastN, maxAnswerHistory]
    omega
  · rw [foldl_appendAnswer es [] hbase, List.nil_append]
    rfl
  · intro k
    rw [foldl_appendAnswer _ [] hbase, List.nil_append]
    exact lastN_length_le _ _

/-- C5 witness: nine appends leave exactly the last eight entries. -/
theorem conversationHistory_sliding_window_witness :
    (List.foldl appendAnswer []
      ["a1", "a2", "a3", "a4", "a5", "a6", "a7", "a8", "a9"]).length = 8 :=
  (conversationHistory_sliding_window
    ["a1", "a2", "a3", "a4", "a5", "a6", "a7", "a8", "a9"] (by decide)).1

/-- C6: when the buffered text-backend body is not valid JSON, or is
valid JSON lacking `choices[0].message`, the directing call does not
fail: it returns the entire buffered body as the content and appends that
content to the history. -/
theorem direct_falls_back_to_raw_body (ex : QwenExtract) (saved : String)
    (hist : List String)
    (h : ex = QwenExtract.parseFailure ∨ ex = QwenExtract.missingMessage) :
    generateSceneDirectionStep ex saved hist =
      (saved, appendAnswer hist saved) := by
  rcases h with h | h <;> subst h <;> rfl

/-- C6 witness: a non-JSON body is returned verbatim and appended. -/
theorem direct_falls_back_to_raw_body_witness :
    generateSceneDirectionStep QwenExtract.parseFailure "not valid json" []
      = ("not valid json", appendAnswer [] "not valid json") :=
  direct_falls_back_to_raw_body QwenExtract.parseFailure "not valid json" []
    (Or.inl rfl)

/-- C7: the extraction of the substring between the first opening and the
last closing brace, which the test suite of the repository expects, does not
happen anywhere in `generateSceneDirection`: on that test content the
code returns the string unchanged, still starting with the leading noise
rather than with a brace. -/
theorem extractJson_missing_in_code :
    (generateSceneDirectionStep (QwenExtract.message txtNoise) "" []).1
      = txtNoise ∧ txtNoise.data.head? = some 'H' := by
  constructor
  · decide
  · decide

/-! ## Handler reduction lemmas -/

theorem keyTruthy_some {o : Option String} (h : keyTruthy o = true) :
    ∃ s, o = some s := by
  cases o with
  | none => simp [keyTruthy] at h
  | some s => exact ⟨s, rfl⟩

theorem illustrateMove_reduce (req : MoveRequest) (k txt : String)
    (parse : String → Option SceneData) (gen : Except Unit Bytes)
    (cache : Cache) (sd : SceneData)
    (h1 : ¬(req.zmcdnSessionID = "" ∨ req.lastZMachineOutput = "" ∨
      req.gameIdentifier = ""))
    (h2 : validGameId req.gameIdentifier = true)
    (hp : parse txt = some sd) :
    illustrateMove req (some k) (Except.ok txt) parse gen cache =
      illustrateMoveCore req.gameIdentifier txt sd gen cache := by
  unfold illustrateMove
  rw [if_neg h1, if_neg (by simp [h2])]
  simp [hp]

theorem core_hit (gid fc : String) (sd : SceneData) (gen : Except Unit Bytes)
    (cache : Cache) (b : Bytes)
    (hrp : sd.repaint = some false) (hk : keyTruthy sd.reuse_key = true)
    (hfind : cacheFind cache (mkCachePath gid (keyString sd.reuse_key))
      = some b) :
    illustrateMoveCore gid fc sd gen cache =
      { response := .img b, cache := cache, directorCalls := 1,
        genCalls := [],
        cacheReads := [mkCachePath gid (keyString sd.reuse_key)],
        cacheWrites := [] } := by
  unfold illustrateMoveCore
  rw [if_pos ⟨hrp, hk⟩]
  simp [hfind]

theorem core_miss_ok (gid fc : String) (sd : SceneData) (cache : Cache)
    (b : Bytes)
    (hrp : sd.repaint = some false) (hk : keyTruthy sd.reuse_key = true)
    (hfind : cacheFind cache (mkCachePath gid (keyString sd.reuse_key))
      = none) :
    illustrateMoveCore gid fc sd (Except.ok b) cache =
      { response := .img b, cache := cache, directorCalls := 1,
        genCalls := [(fc, "512x512")], cacheReads := [],
        cacheWrites := [] } := by
  unfold illustrateMoveCore
  rw [if_pos ⟨hrp, hk⟩]
  simp [hfind]

theorem core_miss_err (gid fc : String) (sd : SceneData) (cache : Cache)
    (e : Unit)
    (hrp : sd.repaint = some false) (hk : keyTruthy sd.reuse_key = true)
    (hfind : cacheFind cache (mkCachePath gid (keyString sd.reuse_key))
      = none) :
    illustrateMoveCore gid fc sd (Except.error e) cache =
      { response := .err 500 "failed to process request", cache := cache,
        directorCalls := 1, genCalls := [(fc, "512x512")], cacheReads := [],
        cacheWrites := [] } := by
  unfold illustrateMoveCore
  rw [if_pos ⟨hrp, hk⟩]
  simp [hfind]

theorem core_else_err (gid fc : String) (sd : SceneData) (cache : Cache)
    (e : Unit)
    (hnot : ¬(sd.repaint = some false ∧ keyTruthy sd.reuse_key = true)) :
    illustrateMoveCore gid fc sd (Except.error e) cache =
      { response := .err 500 "failed to process request", cache := cache,
        directorCalls := 1, genCalls := [(fc, "512x512")], cacheReads := [],
        cacheWrites := [] } := by
  unfold illustrateMoveCore
  rw [if_neg hnot]

theorem core_else_ok_write (gid fc : String) (sd : SceneData) (cache : Cache)
    (b : Bytes)
    (hnot : ¬(sd.repaint = some false ∧ keyTruthy sd.reuse_key = true))
    (hw : sd.repaint = some true ∧ keyTruthy sd.reuse_key = true) :
    illustrateMoveCore gid fc sd (Except.ok b) cache =
      { response := .img b,
        cache := cacheWrite cache (mkCachePath gid (keyString sd.reuse_key)) b,
        directorCalls := 1, genCalls := [(fc, "512x512")], cacheReads := [],
        cacheWrites := [mkCachePath gid (keyString sd.reuse_key)] } := by
  unfold illustrateMoveCore
  rw [if_neg hnot]
  simp [hw]

theorem core_else_ok_nowrite (gid fc : String) (sd : SceneData)
    (cache : Cache) (b : Bytes)
    (hnot : ¬(sd.repaint = some false ∧ keyTruthy sd.reuse_key = true))
    (hnw : ¬(sd.repaint = some true ∧ keyTruthy sd.reuse_key = true)) :
    illustrateMoveCore gid fc sd (Except.ok b) cache =
      { response := .img b, cache := cache, directorCalls := 1,
        genCalls := [(fc, "512x512")], cacheReads := [],
        cacheWrites := [] } := by
  unfold illustrateMoveCore
  rw [if_neg hnot]
  simp [hnw]

/-- C3: when the directive text returned by the director is not parseable as
JSON, the whole request fails with the invalid-directive error, the raw
text is not used as a fallback, and no image-generation call and no cache
read or write happens. -/
theorem invalid_directive_fails_request (req : MoveRequest) (k txt : String)
    (parse : String → Option SceneData) (gen : Except Unit Bytes)
    (cache : Cache)
    (h1 : ¬(req.zmcdnSessionID = "" ∨ req.lastZMachineOutput = "" ∨
      req.gameIdentifier = ""))
    (h2 : validGameId req.gameIdentifier = true)
    (hp : parse txt = none) :
    (illustrateMove req (some k) (Except.ok txt) parse gen cache).response
        = .err 500 "Invalid JSON from game master" ∧
    (illustrateMove req (some k) (Except.ok txt) parse gen cache).genCalls
        = [] ∧
    (illustrateMove req (some k) (Except.ok txt) parse gen cache).cacheReads
        = [] ∧
    (illustrateMove req (some k) (Except.ok txt) parse gen cache).cacheWrites
        = [] ∧
    (illustrateMove req (some k) (Except.ok txt) parse gen cache).cache
        = cache := by
  unfold illustrateMove
  rw [if_neg h1, if_neg (by simp [h2])]
  simp [hp, errOutcome]

/-- C3 witness: an unparseable directive on a well-formed request. -/
theorem invalid_directive_fails_request_witness :
    (illustrateMove reqA (some "key") (Except.ok "no json here")
      (fun _ => none) (Except.ok [9]) []).response
      = .err 500 "Invalid JSON from game master" :=
  (invalid_directive_fails_request reqA "key" "no json here"
    (fun _ => none) (Except.ok [9]) [] (by decide) (by decide) rfl).1

/-- C1 (amended): on a well-formed request whose directive parses, the
handler returns cached bytes with zero illustrator calls exactly when
`repaint === false`, the `reuse_key` is present AND non-empty (JS
truthiness), and the cache entry exists; in every other case it calls the
illustrator, and when that call succeeds the request does not fail. -/
theorem cache_decision_amended (req : MoveRequest) (k txt : String)
    (parse : String → Option SceneData) (gen : Except Unit Bytes)
    (cache : Cache) (sd : SceneData)
    (h1 : ¬(req.zmcdnSessionID = "" ∨ req.lastZMachineOutput = "" ∨
      req.gameIdentifier = ""))
    (h2 : validGameId req.gameIdentifier = true)
    (hp : parse txt = some sd) :
    ((illustrateMove req (some k) (Except.ok txt) parse gen cache).genCalls
        = [] ↔
      (sd.repaint = some false ∧ keyTruthy sd.reuse_key = true ∧
        (cacheFind cache
          (mkCachePath req.gameIdentifier (keyString sd.reuse_key))).isSome
          = true)) ∧
    (∀ b, sd.repaint = some false → keyTruthy sd.reuse_key = true →
      cacheFind cache (mkCachePath req.gameIdentifier (keyString sd.reuse_key))
        = some b →
      (illustrateMove req (some k) (Except.ok txt) parse gen cache).response
        = .img b) ∧
    ((illustrateMove req (some k) (Except.ok txt) parse gen cache).genCalls
        ≠ [] →
      ∀ b, gen = Except.ok b →
      (illustrateMove req (some k) (Except.ok txt) parse gen cache).response
        = .img b) := by
  rw [illustrateMove_reduce req k txt parse gen cache sd h1 h2 hp]
  by_cases hc : sd.repaint = some false ∧ keyTruthy sd.reuse_key = true
  · obtain ⟨hrp, hk⟩ := hc
    cases hfind : cacheFind cache
        (mkCachePath req.gameIdentifier (keyString sd.reuse_key)) with
    | some b0 =>
      rw [core_hit _ _ _ _ _ _ hrp hk hfind]
      refine ⟨by simp [hrp, hk, hfind], ?_, ?_⟩
      · intro b _ _ hfind2
        injection hfind2 with hb
        rw [hb]
      · intro hne
        simp at hne
    | none =>
      cases gen with
      | ok b1 =>
        rw [core_miss_ok _ _ _ _ _ hrp hk hfind]
        refine ⟨by simp [hfind], ?_, ?_⟩
        · intro b _ _ hfind2
          exact absurd hfind2 (by simp)
        · intro _ b hb
          injection hb with hb1
          rw [hb1]
      | error e =>
        rw [core_miss_err _ _ _ _ _ hrp hk hfind]
        refine ⟨by simp [hfind], ?_, ?_⟩
        · intro b _ _ hfind2
          exact absurd hfind2 (by simp)
        · intro _ b hb
          exact absurd hb (by simp)
  · cases gen with
    | ok b1 =>
      by_cases hw : sd.repaint = some true ∧ keyTruthy sd.reuse_key = true
      · rw [core_else_ok_write _ _ _ _ _ hc hw]
        refine ⟨?_, ?_, ?_⟩
        · constructor
          · intro h
            simp at h
          · rintro ⟨ha, hb', _⟩
            exact absurd ⟨ha, hb'⟩ hc
        · intro b hrp hk _
          exact absurd ⟨hrp, hk⟩ hc
        · intro _ b hb
          injection hb with hb1
          rw [hb1]
      · rw [core_else_ok_nowrite _ _ _ _ _ hc hw]
        refine ⟨?_, ?_, ?_⟩
        · constructor
          · intro h
            simp at h
          · rintro ⟨ha, hb', _⟩
            exact absurd ⟨ha, hb'⟩ hc
        · intro b hrp hk _
          exact absurd ⟨hrp, hk⟩ hc
        · intro _ b hb
          injection hb with hb1
          rw [hb1]
    | error e =>
      rw [core_else_err _ _ _ _ _ hc]
      refine ⟨?_, ?_, ?_⟩
      · constructor
        · intro h
          simp at h
        · rintro ⟨ha, hb', _⟩
          exact absurd ⟨ha, hb'⟩ hc
      · intro b hrp hk _
        exact absurd ⟨hrp, hk⟩ hc
      · intro _ b hb
        exact absurd hb (by simp)

/-- C1 counterexample: a directive with `repaint: false` and a present
but empty `reuse_key`, with a cache entry existing under the empty key:
the handler still calls the illustrator and does not return the cached
bytes, refuting the if-and-only-if of the claim for "present" read as field
presence. -/
theorem cache_decision_counterexample :
    sdEmptyKeyFalse.repaint = some false ∧
    sdEmptyKeyFalse.reuse_key.isSome = true ∧
    (cacheFind cacheEmptyKey
      (mkCachePath "zork1.z3" (keyString sdEmptyKeyFalse.reuse_key))).isSome
      = true ∧
    (illustrateMove reqA (some "key") (Except.ok txtEmptyKeyFalse)
      (parseOf txtEmptyKeyFalse sdEmptyKeyFalse) (Except.ok [9])
      cacheEmptyKey).genCalls ≠ [] ∧
    (illustrateMove reqA (some "key") (Except.ok txtEmptyKeyFalse)
      (parseOf txtEmptyKeyFalse sdEmptyKeyFalse) (Except.ok [9])
      cacheEmptyKey).response ≠ .img [1, 2, 3] := by
  decide

/-- C1 witness: a cache hit with a non-empty key makes zero illustrator
calls. -/
theorem cache_decision_witness :
    (illustrateMove reqA (some "key") (Except.ok txtHit)
      (parseOf txtHit sdHit) (Except.ok [9]) cacheHit).genCalls = [] := by
  have h := cache_decision_amended reqA "key" txtHit (parseOf txtHit sdHit)
    (Except.ok [9]) cacheHit sdHit (by decide) (by decide) (by decide)
  exact h.1.mpr (by decide)

/-- C2 (amended): when the image-generation call succeeds, a keyed cache
entry is created exactly when `repaint === true` and the `reuse_key` is
present AND non-empty (JS truthiness); in that case the bytes readable
under that exact key afterwards equal the generated bytes, and no keyed
entry is ever created when the `reuse_key` is absent. -/
theorem cache_write_amended (req : MoveRequest) (k txt : String)
    (parse : String → Option SceneData) (cache : Cache) (sd : SceneData)
    (b : Bytes)
    (h1 : ¬(req.zmcdnSessionID = "" ∨ req.lastZMachineOutput = "" ∨
      req.gameIdentifier = ""))
    (h2 : validGameId req.gameIdentifier = true)
    (hp : parse txt = some sd) :
    ((illustrateMove req (some k) (Except.ok txt) parse (Except.ok b)
        cache).cacheWrites ≠ [] ↔
      (sd.repaint = some true ∧ keyTruthy sd.reuse_key = true)) ∧
    (sd.repaint = some true → keyTruthy sd.reuse_key = true →
      (illustrateMove req (some k) (Except.ok txt) parse (Except.ok b)
          cache).cacheWrites
        = [mkCachePath req.gameIdentifier (keyString sd.reuse_key)] ∧
      cacheFind
        (illustrateMove req (some k) (Except.ok txt) parse (Except.ok b)
          cache).cache
        (mkCachePath req.gameIdentifier (keyString sd.reuse_key))
        = some b) ∧
    (sd.reuse_key = none →
      (illustrateMove req (some k) (Except.ok txt) parse (Except.ok b)
          cache).cacheWrites = [] ∧
      (illustrateMove req (some k) (Except.ok txt) parse (Except.ok b)
          cache).cache = cache) := by
  rw [illustrateMove_reduce req k txt parse (Except.ok b) cache sd h1 h2 hp]
  by_cases hc : sd.repaint = some false ∧ keyTruthy sd.reuse_key = true
  · obtain ⟨hrp, hk⟩ := hc
    cases hfind : cacheFind cache
        (mkCachePath req.gameIdentifier (keyString sd.reuse_key)) with
    | some b0 =>
      rw [core_hit _ _ _ _ _ _ hrp hk hfind]
      refine ⟨by simp [hrp], ?_, by simp⟩
      intro hrp2 _
      rw [hrp] at hrp2
      exact absurd hrp2 (by simp)
    | none =>
      rw [core_miss_ok _ _ _ _ _ hrp hk hfind]
      refine ⟨by simp [hrp], ?_, by simp⟩
      intro hrp2 _
      rw [hrp] at hrp2
      exact absurd hrp2 (by simp)
  · by_cases hw : sd.repaint = some true ∧ keyTruthy sd.reuse_key = true
    · rw [core_else_ok_write _ _ _ _ _ hc hw]
      refine ⟨by simp [hw.1, hw.2], ?_, ?_⟩
      · intro _ _
        refine ⟨rfl, ?_⟩
        simp [cacheWrite, cacheFind]
      · intro hnone
        rw [hnone] at hw
        exact absurd hw.2 (by simp [keyTruthy])
    · rw [core_else_ok_nowrite _ _ _ _ _ hc hw]
      refine ⟨⟨fun h => absurd rfl h, fun h => absurd h hw⟩, ?_, by simp⟩
      intro hrp2 hk2
      exact absurd ⟨hrp2, hk2⟩ hw

/-- C2 counterexample: a directive with `repaint: true` and a present but
empty `reuse_key`: the generation succeeds yet no cache entry is created,
refuting the if-and-only-if of the claim for "present" read as field
presence. -/
theorem cache_write_counterexample :
    sdEmptyKeyTrue.repaint = some true ∧
    sdEmptyKeyTrue.reuse_key.isSome = true ∧
    (illustrateMove reqA (some "key") (Except.ok txtEmptyKeyTrue)
      (parseOf txtEmptyKeyTrue sdEmptyKeyTrue) (Except.ok [9])
      []).cacheWrites = [] ∧
    (illustrateMove reqA (some "key") (Except.ok txtEmptyKeyTrue)
      (parseOf txtEmptyKeyTrue sdEmptyKeyTrue) (Except.ok [9])
      []).cache = [] := by
  decide

/-- C2 witness: repaint with a non-empty key writes the generated bytes
under that key. -/
theorem cache_write_witness :
    (illustrateMove reqA (some "key") (Except.ok txtHouse)
      (parseOf txtHouse sdHouse) (Except.ok [9]) []).cacheWrites
      = [mkCachePath reqA.gameIdentifier (keyString sdHouse.reuse_key)] := by
  have h := cache_write_amended reqA "key" txtHouse (parseOf txtHouse sdHouse)
    [] sdHouse [9] (by decide) (by decide) (by decide)
  exact (h.2.1 (by decide) (by decide)).1

/-- C4 (amended): every image-generation call made by the handler uses
the entire directive text returned by the director as the prompt, and the
default size 512x512 of the illustrator client (no explicit size is passed). -/
theorem gen_prompt_amended (req : MoveRequest) (k txt : String)
    (parse : String → Option SceneData) (gen : Except Unit Bytes)
    (cache : Cache) (sd : SceneData)
    (h1 : ¬(req.zmcdnSessionID = "" ∨ req.lastZMachineOutput = "" ∨
      req.gameIdentifier = ""))
    (h2 : validGameId req.gameIdentifier = true)
    (hp : parse txt = some sd) :
    ∀ pr sz, (pr, sz) ∈
        (illustrateMove req (some k) (Except.ok txt) parse gen
          cache).genCalls →
      pr = txt ∧ sz = "512x512" := by
  intro pr sz hmem
  rw [illustrateMove_reduce req k txt parse gen cache sd h1 h2 hp] at hmem
  by_cases hc : sd.repaint = some false ∧ keyTruthy sd.reuse_key = true
  · obtain ⟨hrp, hk⟩ := hc
    cases hfind : cacheFind cache
        (mkCachePath req.gameIdentifier (keyString sd.reuse_key)) with
    | some b0 =>
      rw [core_hit _ _ _ _ _ _ hrp hk hfind] at hmem
      simp at hmem
    | none =>
      cases gen with
      | ok b1 =>
        rw [core_miss_ok _ _ _ _ _ hrp hk hfind] at hmem
        simp at hmem
        exact hmem
      | error e =>
        rw [core_miss_err _ _ _ _ _ hrp hk hfind] at hmem
        simp at hmem
        exact hmem
  · cases gen with
    | ok b1 =>
      by_cases hw : sd.repaint = some true ∧ keyTruthy sd.reuse_key = true
      · rw [core_else_ok_write _ _ _ _ _ hc hw] at hmem
        simp at hmem
        exact hmem
      · rw [core_else_ok_nowrite _ _ _ _ _ hc hw] at hmem
        simp at hmem
        exact hmem
    | error e =>
      rw [core_else_err _ _ _ _ _ hc] at hmem
      simp at hmem
      exact hmem

/-- C4 counterexample: on a directive whose `visual_prompt` field differs
from the directive text, the generation call is made with the whole
directive text as the prompt, not with the `visual_prompt` field. -/
theorem gen_prompt_counterexample :
    (illustrateMove reqA (some "key") (Except.ok txtHouse)
      (parseOf txtHouse sdHouse) (Except.ok [9]) []).genCalls
      = [(txtHouse, "512x512")] ∧
    sdHouse.visual_prompt = some "a white house" ∧
    txtHouse ≠ "a white house" := by
  decide

/-- C4 witness: the amended statement applied to a concrete generating
request. -/
theorem gen_prompt_witness : txtHouse = txtHouse ∧ "512x512" = "512x512" :=
  gen_prompt_amended reqA "key" txtHouse (parseOf txtHouse sdHouse)
    (Except.ok [9]) [] sdHouse (by decide) (by decide) (by decide)
    txtHouse "512x512" (by decide)

theorem splitSegsAux_append_slash (xs : List Char) :
    ∀ (cur ys : List Char),
      splitSegsAux cur (xs ++ '/' :: ys)
        = splitSegsAux cur xs ++ splitSegsAux [] ys := by
  induction xs with
  | nil =>
    intro cur ys
    simp [splitSegsAux]
  | cons c xs ih =>
    intro cur ys
    by_cases hc : c = '/'
    · subst hc
      show splitSegsAux cur ('/' :: (xs ++ '/' :: ys))
        = splitSegsAux cur ('/' :: xs) ++ splitSegsAux [] ys
      simp only [splitSegsAux, if_pos rfl]
      rw [ih]
      simp
    · show splitSegsAux cur (c :: (xs ++ '/' :: ys))
        = splitSegsAux cur (c :: xs) ++ splitSegsAux [] ys
      simp only [splitSegsAux, if_neg hc]
      exact ih (c :: cur) ys

theorem splitSegsAux_nosep (ys : List Char) :
    ∀ cur, ('/' : Char) ∉ ys → splitSegsAux cur ys = [cur.reverse ++ ys] := by
  induction ys with
  | nil =>
    intro cur _
    simp [splitSegsAux]
  | cons c ys ih =>
    intro cur h
    have hc : ¬ c = '/' := by
      intro hh
      exact h (by rw [hh]; exact List.mem_cons_self _ _)
    simp only [splitSegsAux]
    rw [if_neg hc, ih (c :: cur) (fun hm => h (List.mem_cons_of_mem c hm))]
    simp

theorem normSegs_append_normal (l : List (List Char)) (s : List Char)
    (h0 : s ≠ []) (h1 : s ≠ ['.']) (h2 : s ≠ ['.', '.']) :
    normSegs (l ++ [s]) = normSegs l ++ [s] := by
  unfold normSegs
  rw [List.foldl_append]
  simp only [List.foldl_cons, List.foldl_nil]
  have hstep : stepSeg (l.foldl stepSeg []) s = s :: l.foldl stepSeg [] := by
    unfold stepSeg
    rw [if_neg (by simp [h0, h1]), if_neg h2]
  rw [hstep, List.reverse_cons]

theorem joinSegs_append_last (front : List (List Char)) (s : List Char) :
    joinSegs (front ++ [s])
      = if front.isEmpty then s else joinSegs front ++ '/' :: s := by
  induction front with
  | nil => simp [joinSegs]
  | cons t front ih =>
    cases front with
    | nil => simp [joinSegs]
    | cons u front2 =>
      have e1 : joinSegs (t :: ((u :: front2) ++ [s]))
          = t ++ '/' :: joinSegs ((u :: front2) ++ [s]) := rfl
      show joinSegs (t :: ((u :: front2) ++ [s])) = _
      rw [e1, ih]
      simp [joinSegs, List.append_assoc]

theorem mkCachePath_final_component (gid key : String)
    (hk : ('/' : Char) ∉ key.data) :
    ∃ pre : List Char,
      (mkCachePath gid key).data = pre ++ (key.data ++ ".png".data) ∧
      (pre = [] ∨ pre.getLast? = some '/') := by
  have hpng : ('/' : Char) ∉ ".png".data := by decide
  have htail : ('/' : Char) ∉ (key.data ++ ".png".data) := by
    intro hm
    rcases List.mem_append.mp hm with hm | hm
    · exact hk hm
    · exact hpng hm
  have h0 : key.data ++ ".png".data ≠ [] := by
    intro h
    have := congrArg List.length h
    simp at this
  have h1 : key.data ++ ".png".data ≠ ['.'] := by
    intro h
    have := congrArg List.length h
    simp at this
  have h2 : key.data ++ ".png".data ≠ ['.', '.'] := by
    intro h
    have := congrArg List.length h
    simp at this
  have hslash : ("/" : String).data = ['/'] := rfl
  have hdata : ("cache/" ++ gid ++ "/" ++ (key ++ ".png")).data
      = ("cache/" ++ gid).data ++ '/' :: (key.data ++ ".png".data) := by
    simp [String.data_append, hslash, List.append_assoc]
  have hsplit : splitSegsAux []
      ("cache/" ++ gid ++ "/" ++ (key ++ ".png")).data
      = splitSegsAux [] ("cache/" ++ gid).data
          ++ [key.data ++ ".png".data] := by
    rw [hdata, splitSegsAux_append_slash,
      splitSegsAux_nosep (key.data ++ ".png".data) [] htail]
    simp
  unfold mkCachePath posixNormalize
  rw [hsplit, normSegs_append_normal _ _ h0 h1 h2]
  cases hfront : normSegs (splitSegsAux [] ("cache/" ++ gid).data) with
  | nil =>
    refine ⟨[], ?_, Or.inl rfl⟩
    simp [joinSegs]
  | cons a front2 =>
    refine ⟨joinSegs (a :: front2) ++ ['/'], ?_,
      Or.inr (List.getLast?_concat _)⟩
    rw [List.cons_append]
    show joinSegs (a :: (front2 ++ [key.data ++ ".png".data]))
      = (joinSegs (a :: front2) ++ ['/']) ++ (key.data ++ ".png".data)
    rw [← List.cons_append, joinSegs_append_last]
    simp

/-- C9 (amended): every cache path the handler reads or writes is the
POSIX join of `cache`, the collection identifier, and the reuse key with
a fixed `.png` suffix: the key is interpolated verbatim into the joined
path before `path.join` normalization, and the cache applies no further
sanitization or collision handling of its own; whenever the key contains
no `/` separator, the final storage-path component is exactly the key
with `.png` appended. -/
theorem reuse_key_join_amended (req : MoveRequest) (apiKey : Option String)
    (director : Except Unit String) (parse : String → Option SceneData)
    (gen : Except Unit Bytes) (cache : Cache) :
    ∀ p,
      (p ∈ (illustrateMove req apiKey director parse gen cache).cacheReads ∨
       p ∈ (illustrateMove req apiKey director parse gen cache).cacheWrites) →
      ∃ txt sd key, director = Except.ok txt ∧ parse txt = some sd ∧
        sd.reuse_key = some key ∧
        p = mkCachePath req.gameIdentifier key ∧
        (('/' : Char) ∉ key.data →
          ∃ pre : List Char,
            p.data = pre ++ (key.data ++ ".png".data) ∧
            (pre = [] ∨ pre.getLast? = some '/')) := by
  intro p hmem
  unfold illustrateMove at hmem
  by_cases hA : req.zmcdnSessionID = "" ∨ req.lastZMachineOutput = "" ∨
      req.gameIdentifier = ""
  · rw [if_pos hA] at hmem
    simp [errOutcome] at hmem
  · rw [if_neg hA] at hmem
    by_cases hB : validGameId req.gameIdentifier = false
    · rw [if_pos hB] at hmem
      simp [errOutcome] at hmem
    · rw [if_neg hB] at hmem
      cases apiKey with
      | none => simp [errOutcome] at hmem
      | some k =>
        cases director with
        | error e => simp [errOutcome] at hmem
        | ok txt =>
          cases hp : parse txt with
          | none => simp [hp, errOutcome] at hmem
          | some sd =>
            simp only [hp] at hmem
            refine ⟨txt, sd, ?_⟩
            by_cases hc : sd.repaint = some false ∧
                keyTruthy sd.reuse_key = true
            · obtain ⟨hrp, hk⟩ := hc
              obtain ⟨s, hs⟩ := keyTruthy_some hk
              cases hfind : cacheFind cache
                  (mkCachePath req.gameIdentifier (keyString sd.reuse_key)) with
              | some b0 =>
                rw [core_hit _ _ _ _ _ _ hrp hk hfind] at hmem
                simp at hmem
                refine ⟨s, rfl, hp, hs, by rw [hmem, hs]; rfl, ?_⟩
                intro hknos
                rw [hmem, hs]
                exact mkCachePath_final_component req.gameIdentifier s hknos
              | none =>
                cases gen with
                | ok b1 =>
                  rw [core_miss_ok _ _ _ _ _ hrp hk hfind] at hmem
                  simp at hmem
                | error e =>
                  rw [core_miss_err _ _ _ _ _ hrp hk hfind] at hmem
                  simp at hmem
            · cases gen with
              | ok b1 =>
                by_cases hw : sd.repaint = some true ∧
                    keyTruthy sd.reuse_key = true
                · obtain ⟨s, hs⟩ := keyTruthy_some hw.2
                  rw [core_else_ok_write _ _ _ _ _ hc hw] at hmem
                  simp at hmem
                  refine ⟨s, rfl, hp, hs, by rw [hmem, hs]; rfl, ?_⟩
                  intro hknos
                  rw [hmem, hs]
                  exact mkCachePath_final_component req.gameIdentifier s hknos
                · rw [core_else_ok_nowrite _ _ _ _ _ hc hw] at hmem
                  simp at hmem
              | error e =>
                rw [core_else_err _ _ _ _ _ hc] at hmem
                simp at hmem

/-- C9 counterexample: with reuse key `../x` the path actually used is
`cache/x.png` — the `path.join` normalization consumed the collection
component, the final path component is `x.png`, and the verbatim
`../x.png` does not even occur as a substring of the used path, refuting
the claim that the key is used verbatim as the final component with no
normalization. -/
theorem reuse_key_verbatim_counterexample :
    sdTraversal.reuse_key = some "../x" ∧
    (illustrateMove reqA (some "key") (Except.ok txtTraversal)
      (parseOf txtTraversal sdTraversal) (Except.ok [9])
      cacheTraversal).cacheReads = ["cache/x.png"] ∧
    mkCachePath reqA.gameIdentifier "../x" = "cache/x.png" ∧
    hasSub "../x.png".data "cache/x.png".data = false := by
  decide

/-- C9 witness: a concrete cache hit under key `west1`, which contains
no separator, so the path is the normalized join and its final component
is `west1.png` verbatim. -/
theorem reuse_key_join_witness :
    ∃ txt sd key, (Except.ok txtHit : Except Unit String) = Except.ok txt ∧
      parseOf txtHit sdHit txt = some sd ∧ sd.reuse_key = some key ∧
      mkCachePath "zork1.z3" "west1" = mkCachePath reqA.gameIdentifier key ∧
      (('/' : Char) ∉ key.data →
        ∃ pre : List Char,
          (mkCachePath "zork1.z3" "west1").data
            = pre ++ (key.data ++ ".png".data) ∧
          (pre = [] ∨ pre.getLast? = some '/')) :=
  reuse_key_join_amended reqA (some "key") (Except.ok txtHit)
    (parseOf txtHit sdHit) (Except.ok [9]) cacheHit
    (mkCachePath "zork1.z3" "west1") (Or.inl (by decide))

/-- C10: a gameIdentifier containing any character outside
`[a-zA-Z0-9.]` is rejected with HTTP 400 before any backend call or
filesystem access, and consequently the collection component of every
cache path used by the endpoint matches `^[a-zA-Z0-9.]+$`. -/
theorem gameIdentifier_validation (req : MoveRequest) (apiKey : Option String)
    (director : Except Unit String) (parse : String → Option SceneData)
    (gen : Except Unit Bytes) (cache : Cache) :
    ((∃ c ∈ req.gameIdentifier.data, validGameChar c = false) →
      (∃ msg, (illustrateMove req apiKey director parse gen cache).response
        = MoveResponse.err 400 msg) ∧
      (illustrateMove req apiKey director parse gen cache).directorCalls = 0 ∧
      (illustrateMove req apiKey director parse gen cache).genCalls = [] ∧
      (illustrateMove req apiKey director parse gen cache).cacheReads = [] ∧
      (illustrateMove req apiKey director parse gen cache).cacheWrites = [] ∧
      (illustrateMove req apiKey director parse gen cache).cache = cache) ∧
    (∀ p,
      (p ∈ (illustrateMove req apiKey director parse gen cache).cacheReads ∨
       p ∈ (illustrateMove req apiKey director parse gen cache).cacheWrites) →
      validGameId req.gameIdentifier = true) := by
  constructor
  · rintro ⟨c, hcin, hbad⟩
    have hv : validGameId req.gameIdentifier = false := by
      have hall : req.gameIdentifier.data.all validGameChar = false := by
        cases h : req.gameIdentifier.data.all validGameChar
        · rfl
        · exfalso
          have := List.all_eq_true.mp h c hcin
          rw [hbad] at this
          exact Bool.false_ne_true this
      simp [validGameId, hall]
    unfold illustrateMove
    by_cases hA : req.zmcdnSessionID = "" ∨ req.lastZMachineOutput = "" ∨
        req.gameIdentifier = ""
    · rw [if_pos hA]
      exact ⟨⟨_, rfl⟩, rfl, rfl, rfl, rfl, rfl⟩
    · rw [if_neg hA, if_pos hv]
      exact ⟨⟨_, rfl⟩, rfl, rfl, rfl, rfl, rfl⟩
  · intro p hmem
    by_contra hval
    have hv : validGameId req.gameIdentifier = false := by
      cases h : validGameId req.gameIdentifier
      · rfl
      · exact absurd h hval
    unfold illustrateMove at hmem
    by_cases hA : req.zmcdnSessionID = "" ∨ req.lastZMachineOutput = "" ∨
        req.gameIdentifier = ""
    · rw [if_pos hA] at hmem
      simp [errOutcome] at hmem
    · rw [if_neg hA, if_pos hv] at hmem
      simp [errOutcome] at hmem

/-- C10 witness: a traversal attempt `../evil` is rejected with 400. -/
theorem gameIdentifier_validation_witness :
    ∃ msg, (illustrateMove reqBad (some "key") (Except.ok "t")
      (fun _ => none) (Except.ok [9]) []).response
      = MoveResponse.err 400 msg :=
  ((gameIdentifier_validation reqBad (some "key") (Except.ok "t")
    (fun _ => none) (Except.ok [9]) []).1 ⟨'/', by decide, by decide⟩).1

/-! ## Reasoning-marker stripping lemmas -/

theorem opn_length_eq : opn.length = 7 := rfl

theorem cls_length_eq : cls.length = 8 := rfl

theorem isPrefixOf_append_self (m V : List Char) :
    m.isPrefixOf (m ++ V) = true := by
  induction m with
  | nil => simp [List.isPrefixOf]
  | cons c m ih => simp [List.isPrefixOf, ih]

theorem isPrefixOf_iff_take (p s : List Char) :
    p.isPrefixOf s = true ↔ s.take p.length = p := by
  induction p generalizing s with
  | nil => simp [List.isPrefixOf]
  | cons a p ih =>
    cases s with
    | nil => simp [List.isPrefixOf]
    | cons b s =>
      simp only [List.isPrefixOf, Bool.and_eq_true, beq_iff_eq,
        List.length_cons, List.take_succ_cons, ih]
      constructor
      · rintro ⟨h1, h2⟩
        rw [h1, h2]
      · intro h
        injection h with h1 h2
        exact ⟨h1.symm, h2⟩

theorem hasSub_of_isPrefixOf (p s : List Char) (h : p.isPrefixOf s = true) :
    hasSub p s = true := by
  cases s with
  | nil =>
    cases p with
    | nil => rfl
    | cons a p => simp [List.isPrefixOf] at h
  | cons c rest => simp [hasSub, h]

theorem skipToClose_length (s t : List Char) (h : skipToClose s = some t) :
    t.length ≤ s.length := by
  induction s with
  | nil => simp [skipToClose] at h
  | cons c rest ih =>
    unfold skipToClose at h
    split at h
    · injection h with h1
      rw [← h1]
      simp
    · have := ih h
      simp
      omega

theorem marker_no_boundary (m u V : List Char) (hne : u ≠ [])
    (hself : ∀ k, k < m.length → 0 < k →
      ¬ m = m.take k ++ m.take (m.length - k))
    (hu : hasSub m u = false) :
    m.isPrefixOf (u ++ (m ++ V)) = false := by
  by_contra hcon
  have hcon2 : m.isPrefixOf (u ++ (m ++ V)) = true := by
    cases h : m.isPrefixOf (u ++ (m ++ V)) with
    | false => exact absurd h hcon
    | true => rfl
  have h : (u ++ (m ++ V)).take m.length = m :=
    (isPrefixOf_iff_take m _).mp hcon2
  by_cases hlen : m.length ≤ u.length
  · have hu_take : u.take m.length = m := by
      rw [List.take_append_eq_append_take] at h
      have h0 : m.length - u.length = 0 := by omega
      rw [h0] at h
      simpa using h
    have hpre : m.isPrefixOf u = true := by
      rw [isPrefixOf_iff_take]
      exact hu_take
    have hsub := hasSub_of_isPrefixOf m u hpre
    rw [hu] at hsub
    exact Bool.false_ne_true hsub
  · push_neg at hlen
    have hk0 : 0 < u.length := List.length_pos.mpr hne
    rw [List.take_append_eq_append_take,
      List.take_of_length_le (le_of_lt hlen)] at h
    have h2 : (m ++ V).take (m.length - u.length)
        = m.take (m.length - u.length) := by
      rw [List.take_append_eq_append_take]
      have h0 : m.length - u.length - m.length = 0 := by omega
      rw [h0]
      simp
    rw [h2] at h
    have hu_eq : u = m.take u.length := by
      have h3 := congrArg (List.take u.length) h
      rw [List.take_append_eq_append_take] at h3
      simp at h3
      exact h3
    refine absurd ?_ (hself u.length hlen hk0)
    rw [← hu_eq]
    exact h.symm

theorem opn_self_overlap :
    ∀ k, k < opn.length → 0 < k →
      ¬ opn = opn.take k ++ opn.take (opn.length - k) := by
  decide

theorem cls_self_overlap :
    ∀ k, k < cls.length → 0 < k →
      ¬ cls = cls.take k ++ cls.take (cls.length - k) := by
  decide

theorem stripAux_fuelfree (f : Nat) :
    ∀ (g : Nat) (s : List Char), s.length ≤ f → s.length ≤ g →
      stripAux f s = stripAux g s := by
  induction f with
  | zero =>
    intro g s hf _
    have hnil : s = [] := List.eq_nil_of_length_eq_zero (by omega)
    subst hnil
    cases g <;> rfl
  | succ f ih =>
    intro g s hf hg
    cases s with
    | nil => cases g <;> rfl
    | cons c rest =>
      cases g with
      | zero => simp at hg
      | succ g =>
        simp only [stripAux]
        by_cases hop : opn.isPrefixOf (c :: rest) = true
        · simp only [hop, if_true]
          cases hsk : skipToClose ((c :: rest).drop opn.length) with
          | some s2 =>
            have hs2 := skipToClose_length _ _ hsk
            simp only [List.length_drop, List.length_cons, opn_length_eq]
              at hs2
            simp only [List.length_cons] at hf hg
            exact ih g s2 (by omega) (by omega)
          | none =>
            simp only [List.length_cons] at hf hg
            exact congrArg (fun x => c :: x) (ih g rest (by omega) (by omega))
        · have hop2 : opn.isPrefixOf (c :: rest) = false := by
            cases h : opn.isPrefixOf (c :: rest) with
            | false => rfl
            | true => exact absurd h hop
          simp only [hop2, Bool.false_eq_true, if_false]
          simp only [List.length_cons] at hf hg
          exact congrArg (fun x => c :: x) (ih g rest (by omega) (by omega))

theorem stripAux_marker_free (f : Nat) :
    ∀ s : List Char, s.length ≤ f → hasSub opn s = false →
      stripAux f s = s := by
  induction f with
  | zero =>
    intro s hf _
    have hnil : s = [] := List.eq_nil_of_length_eq_zero (by omega)
    subst hnil
    rfl
  | succ f ih =>
    intro s hf hs
    cases s with
    | nil => rfl
    | cons c rest =>
      unfold hasSub at hs
      obtain ⟨h1, h2⟩ := Bool.or_eq_false_iff.mp hs
      simp only [stripAux, h1, Bool.false_eq_true, if_false]
      simp only [List.length_cons] at hf
      exact congrArg (fun x => c :: x) (ih rest (by omega) h2)

theorem stripThink_marker_free (s : List Char) (h : hasSub opn s = false) :
    stripThink s = s :=
  stripAux_marker_free s.length s le_rfl h

theorem skipToClose_through (b rest : List Char)
    (hb : hasSub cls b = false) :
    skipToClose (b ++ (cls ++ rest)) = some rest := by
  induction b with
  | nil =>
    show skipToClose (cls ++ rest) = some rest
    have he : cls ++ rest
        = '<' :: '/' :: 't' :: 'h' :: 'i' :: 'n' :: 'k' :: '>' :: rest := rfl
    rw [he]
    simp [skipToClose, cls, List.isPrefixOf]
  | cons c b ih =>
    unfold hasSub at hb
    obtain ⟨h1, h2⟩ := Bool.or_eq_false_iff.mp hb
    have key : cls.isPrefixOf ((c :: b) ++ (cls ++ rest)) = false :=
      marker_no_boundary cls (c :: b) rest (by simp) cls_self_overlap hb
    simp only [List.cons_append] at key
    show skipToClose (c :: (b ++ (cls ++ rest))) = some rest
    simp only [skipToClose, key, Bool.false_eq_true, if_false]
    exact ih h2

theorem stripAux_cons_matched (c : Char) (rest s2 : List Char)
    (hop : opn.isPrefixOf (c :: rest) = true)
    (hsk : skipToClose ((c :: rest).drop opn.length) = some s2) :
    stripThink (c :: rest) = stripThink s2 := by
  unfold stripThink
  simp only [List.length_cons]
  simp only [stripAux, hop, if_true, hsk]
  apply stripAux_fuelfree
  · have hs2 := skipToClose_length _ _ hsk
    simp only [List.length_drop, List.length_cons, opn_length_eq] at hs2
    omega
  · exact le_rfl

theorem strip_append_open (t V : List Char) (ht : hasSub opn t = false) :
    stripThink (t ++ (opn ++ V)) = t ++ stripThink (opn ++ V) := by
  induction t with
  | nil => simp
  | cons c t ih =>
    unfold hasSub at ht
    obtain ⟨h1, h2⟩ := Bool.or_eq_false_iff.mp ht
    have key : opn.isPrefixOf ((c :: t) ++ (opn ++ V)) = false :=
      marker_no_boundary opn (c :: t) V (by simp) opn_self_overlap
        (by unfold hasSub; exact Bool.or_eq_false_iff.mpr ⟨h1, h2⟩)
    simp only [List.cons_append] at key
    show stripThink (c :: (t ++ (opn ++ V))) = c :: (t ++ stripThink (opn ++ V))
    unfold stripThink
    simp only [List.length_cons]
    simp only [stripAux, key, Bool.false_eq_true, if_false]
    exact congrArg (fun x => c :: x) (ih h2)

theorem strip_open_seg (b rest : List Char) (hb : hasSub cls b = false) :
    stripThink (opn ++ (b ++ (cls ++ rest))) = stripThink rest := by
  have hop : opn.isPrefixOf
      ('<' :: (['t', 'h', 'i', 'n', 'k', '>'] ++ (b ++ (cls ++ rest))))
      = true := by
    have h := isPrefixOf_append_self opn (b ++ (cls ++ rest))
    simp only [opn, List.cons_append] at h
    exact h
  have hsk : skipToClose
      (('<' :: (['t', 'h', 'i', 'n', 'k', '>'] ++ (b ++ (cls ++ rest)))).drop
        opn.length) = some rest := by
    have h0 : ('<' :: (['t', 'h', 'i', 'n', 'k', '>'] ++
        (b ++ (cls ++ rest)))).drop opn.length = b ++ (cls ++ rest) := by
      simp [opn]
    rw [h0]
    exact skipToClose_through b rest hb
  show stripThink
    ('<' :: (['t', 'h', 'i', 'n', 'k', '>'] ++ (b ++ (cls ++ rest))))
    = stripThink rest
  exact stripAux_cons_matched '<' _ rest hop hsk

theorem stripThink_of_Stripped {s r : List Char} (h : Stripped s r) :
    stripThink s = r := by
  induction h with
  | plain t h1 h2 => exact stripThink_marker_free t h1
  | seg t b rest r h1 h2 h3 h4 hrec ih =>
    rw [strip_append_open t _ h1, strip_open_seg b rest h4, ih]

/-- C8 (amended): stripping of reasoning markers applied twice agrees
with applying it once, for every input that decomposes into marker-free
text segments interleaved with well-formed marker pairs, provided the
residual text left after removing the pairs contains no open marker (in
particular whenever the surrounding text has no marker fragments that
join into a fresh open marker after excision). -/
theorem stripReasoningMarkers_idem (s : String) (r : List Char)
    (hs : Stripped s.data r) (hr : hasSub opn r = false) :
    stripReasoningMarkers (stripReasoningMarkers s)
      = stripReasoningMarkers s := by
  have h1 : stripThink s.data = r := stripThink_of_Stripped hs
  show (⟨stripThink (stripThink s.data)⟩ : String) = ⟨stripThink s.data⟩
  rw [h1, stripThink_marker_free r hr]

/-- C8 witness: a string with one well-formed marker pair and clean
surrounding text. -/
theorem stripReasoningMarkers_idem_witness :
    stripReasoningMarkers (stripReasoningMarkers txtThink)
      = stripReasoningMarkers txtThink := by
  have h0 : Stripped " after".data " after".data :=
    Stripped.plain _ (by decide) (by decide)
  have h1 := Stripped.seg "before ".data "reasoning".data " after".data
    " after".data (by decide) (by decide) (by decide) (by decide) h0
  have he : txtThink.data = "before ".data ++
      (opn ++ ("reasoning".data ++ (cls ++ " after".data))) := by decide
  exact stripReasoningMarkers_idem txtThink
    ("before ".data ++ " after".data) (he ▸ h1) (by decide)

/-- C8 counterexample: `txtLatent` contains exactly two well-formed
marker pairs (witnessed by the `Stripped` decomposition), yet one
application of the stripper leaves a fresh marker pair assembled from the
surrounding text, so a second application removes more: the
transformation is not idempotent on it. -/
theorem stripReasoningMarkers_not_idem_counterexample :
    Stripped txtLatent.data
      ("<thi".data ++ ("nk>Y</thi".data ++ "nk>".data)) ∧
    stripReasoningMarkers (stripReasoningMarkers txtLatent)
      ≠ stripReasoningMarkers txtLatent := by
  constructor
  · have h0 : Stripped "nk>".data "nk>".data :=
      Stripped.plain _ (by decide) (by decide)
    have h1 := Stripped.seg "nk>Y</thi".data "Z".data "nk>".data "nk>".data
      (by decide) (by decide) (by decide) (by decide) h0
    have h2 := Stripped.seg "<thi".data "X".data
      ("nk>Y</thi".data ++ (opn ++ ("Z".data ++ (cls ++ "nk>".data))))
      ("nk>Y</thi".data ++ "nk>".data)
      (by decide) (by decide) (by decide) (by decide) h1
    have he : txtLatent.data = "<thi".data ++ (opn ++ ("X".data ++
        (cls ++ ("nk>Y</thi".data ++ (opn ++ ("Z".data ++
          (cls ++ "nk>".data))))))) := by decide
    exact he ▸ h2
  · decide

end Zmcdn
